import Mathlib

/-!
Verification of the `indent-binary-ops` rule
(src/packages/eslint-plugin/rules/padding-line-between-statements/types._ts_.d.ts,
second embedded file, the rule implementation).

The rule's `create` function is shallowly embedded below.  Tokens, source
lines and syntax-tree nodes are the host parser's data and are modelled as
plain structures; ESLint's `sourceCode` query functions used by the rule
(`getFirstToken`, `getTokenBefore`, `tokensAndComments`, `lines`,
`getIndexFromLoc`) are embedded as functions over that data.  JavaScript
strings are modelled as Lean `String` with character-list helpers
(`strDrop` models `String.prototype.slice(n)` for the whitespace strings
involved, whose characters are all single UTF-16 units).  The per-pass
mutable `indentCache` (a `Map<number, string>`) is modelled as an explicit
association list threaded through the evaluation.  A JavaScript runtime
`TypeError` caused by one of the rule's non-null assertions (`!`) is
modelled as the result `Option.none`.
-/

namespace IndentBinaryOps

/-- A lexical token or comment supplied by the host parser: value text,
type tag (`"Keyword"`, `"Identifier"`, `"Punctuator"`, comment types
`"Line"`/`"Block"`, ...), whether it is a comment, its 1-based start/end
source lines, its start column, and its start offset (`token.range[0]`). -/
structure Token where
  value : String
  ttype : String
  isComment : Bool
  startLine : Nat
  startCol : Nat
  endLine : Nat
  rangeStart : Nat
deriving Repr, DecidableEq

/-- A syntax-tree node as far as the rule reads it: `node.loc.start`,
`node.loc.end.line`, `node.range`, and `node.parent?.type`. -/
structure Node where
  startLine : Nat
  startCol : Nat
  endLine : Nat
  rangeStart : Nat
  rangeEnd : Nat
  parentType : Option String
deriving Repr, DecidableEq

/-- The slice of ESLint's `sourceCode` object the rule consumes:
`sourceCode.lines` (raw text of each line, without line terminators) and
`sourceCode.tokensAndComments` (all tokens and comments in source order). -/
structure SourceCode where
  lines : List String
  tokensAndComments : List Token
deriving Repr, DecidableEq

/-- The rule's single positional option: `'tab'`, a space count, or absent
(`options[0]` undefined). -/
inductive IndentOpt where
  | tab : IndentOpt
  | spaces : Nat → IndentOpt
  | defaulted : IndentOpt
deriving Repr, DecidableEq

/-- The per-pass indent cache `indentCache : Map<number, string>`,
modelled as an association list; `cacheSet` prepends, `cacheGet` takes the
most recent binding, so overwriting semantics match `Map.set`. -/
abbrev Cache := List (Nat × String)

/-- `indentCache.get(line)` (after `has`): most recent binding for `line`. -/
def cacheGet (cache : Cache) (line : Nat) : Option String :=
  (cache.find? (fun e => e.1 == line)).map (fun e => e.2)

/-- `indentCache.set(line, s)`. -/
def cacheSet (cache : Cache) (line : Nat) (s : String) : Cache :=
  (line, s) :: cache

/-- Characters matched by the JavaScript regexp class `\s` that can occur
inside a source line (line terminators never occur in `sourceCode.lines`).
Unicode space characters beyond ASCII are not modelled. -/
def isWhitespaceChar (c : Char) : Bool :=
  c == ' ' || c == '\t' || c == '\r' || c == '\n' || c == Char.ofNat 11 || c == Char.ofNat 12

/-- `line.match(/^\s*/)?.[0] ?? ''`: the leading-whitespace run of a line. -/
def leadingWhitespace (s : String) : String :=
  String.mk (s.data.takeWhile isWhitespaceChar)

/-- `s.slice(n)` for the strings involved here: drop the first `n`
characters. -/
def strDrop (n : Nat) (s : String) : String :=
  String.mk (s.data.drop n)

/-- `' '.repeat(n)`. -/
def spacesRepeat (n : Nat) : String :=
  String.mk (List.replicate n ' ')

/-- `const indentStr = options[0] === 'tab' ? '\t' : ' '.repeat(options[0] ?? 2)`. -/
def indentStr : IndentOpt → String
  | IndentOpt.tab => "\t"
  | IndentOpt.spaces n => spacesRepeat n
  | IndentOpt.defaulted => spacesRepeat 2

/-- `getIndentOfLine(line)`: the cached indentation when present, else the
leading-whitespace run of the line's raw text.  `sourceCode.lines` is
1-based here exactly as in `sourceCode.lines[line - 1]`; an out-of-range
line yields the empty string (in the source this cannot arise because
every queried line carries a token). -/
def getIndentOfLine (src : SourceCode) (cache : Cache) (line : Nat) : String :=
  match cacheGet cache line with
  | some s => s
  | none => leadingWhitespace (src.lines.getD (line - 1) "")

/-- `subtractionIndent(indent)`: `indent.slice(1)` in tab mode, else
`indent.slice(options[0] ?? 2)`. -/
def subtractionIndent (opt : IndentOpt) (indent : String) : String :=
  match opt with
  | IndentOpt.tab => strDrop 1 indent
  | IndentOpt.spaces n => strDrop n indent
  | IndentOpt.defaulted => strDrop 2 indent

/-- `getTargetIndent(indent, needAdditionIndent, needSubtractionIndent)`. -/
def getTargetIndent (opt : IndentOpt) (indent : String)
    (needAdditionIndent needSubtractionIndent : Bool) : String :=
  if needAdditionIndent && !needSubtractionIndent then
    indent ++ indentStr opt
  else if !needAdditionIndent && needSubtractionIndent then
    subtractionIndent opt indent
  else
    indent

/-- `firstTokenOfLine(line)`: first entry of `tokensAndComments` starting
on `line` (comments included). -/
def firstTokenOfLine (src : SourceCode) (line : Nat) : Option Token :=
  src.tokensAndComments.find? (fun t => t.startLine == line)

/-- `lastTokenOfLine(line)`: last entry of `tokensAndComments` ending on
`line` (comments included), found by searching the reversed stream. -/
def lastTokenOfLine (src : SourceCode) (line : Nat) : Option Token :=
  src.tokensAndComments.reverse.find? (fun t => t.endLine == line)

/-- `isGreaterThanCloseBracketOfLine(line)`: one pass over the line's
entries of `tokensAndComments`, counting `(` and `)` values, then
`openBracketCount < closeBracketCount`. -/
def isGreaterThanCloseBracketOfLine (src : SourceCode) (line : Nat) : Bool :=
  let tokensAndCommentsOfLine :=
    src.tokensAndComments.filter (fun t => t.startLine == line)
  let counts := tokensAndCommentsOfLine.foldl
    (fun (acc : Nat × Nat) t =>
      ((if t.value == "(" then acc.1 + 1 else acc.1),
       (if t.value == ")" then acc.2 + 1 else acc.2)))
    (0, 0)
  counts.1 < counts.2

/-- `hasExclusivelyCloseBracketOfLine(line)`: no entry of
`tokensAndComments` (comments included) starting on `line` has a value
outside `)`, `}`, `]`. -/
def hasExclusivelyCloseBracketOfLine (src : SourceCode) (line : Nat) : Bool :=
  !(src.tokensAndComments.any
    (fun t => t.startLine == line && !([")", "\x7d", "]"].contains t.value)))

/-- The non-comment tokens strictly before offset `pos`, in stream order. -/
def nonCommentTokensBefore (src : SourceCode) (pos : Nat) : List Token :=
  src.tokensAndComments.filter (fun t => !t.isComment && decide (t.rangeStart < pos))

/-- `sourceCode.getTokenBefore(token)` (default options: comments are
skipped): the nearest non-comment token starting before `token`. -/
def getTokenBefore (src : SourceCode) (t : Token) : Option Token :=
  (nonCommentTokensBefore src t.rangeStart).getLast?

/-- `sourceCode.getTokenBefore(node)`: the nearest non-comment token
starting before the node's start offset. -/
def getTokenBeforeNode (src : SourceCode) (n : Node) : Option Token :=
  (nonCommentTokensBefore src n.rangeStart).getLast?

/-- `sourceCode.getFirstToken(node)`: the first non-comment token inside
the node's range. -/
def getFirstTokenOfNode (src : SourceCode) (n : Node) : Option Token :=
  src.tokensAndComments.find?
    (fun t => !t.isComment && decide (n.rangeStart ≤ t.rangeStart)
      && decide (t.rangeStart < n.rangeEnd))

/-- `token?.value || ''`. -/
def optValue (o : Option Token) : String :=
  match o with
  | some t => t.value
  | none => ""

/-- `token?.loc.start.line` (so that comparing two of these with `===`
matches JavaScript: `undefined === undefined` is true). -/
def optStartLine (o : Option Token) : Option Nat :=
  o.map (fun t => t.startLine)

/-- `sourceCode.getIndexFromLoc({line, column})` with one-character line
terminators: the character offset of the location. -/
def getIndexFromLoc (src : SourceCode) (line col : Nat) : Nat :=
  ((src.lines.take (line - 1)).foldl (fun acc l => acc + l.length + 1) 0) + col

/-- Outcome of the backward parenthesis-skipping walk (lines 257-264 of
the rule): `fault` models the `TypeError` a null `getTokenBefore` result
would raise under the `!` assertion, `abort` the early `return` of the
crossing-into-parent guard, `done tokenRight tokenOperator` normal loop
exit. -/
inductive WalkResult where
  | fault : WalkResult
  | abort : WalkResult
  | done : Token → Token → WalkResult
deriving Repr, DecidableEq

/-- The `while (tokenOperator.value === '(')` loop: step left through
opening parentheses, returning (`abort`) as soon as a fetched preceding
token starts at or before the owning node's start
(`tokenOperator.range[0] <= right.parent!.range[0]`; the rule is invoked
with `right.parent === node`, so the bound is the owning node's start
offset `parentStart`).  `fuel` only bounds the recursion; the caller
passes more fuel than the stream can consume, so `fault` from fuel
exhaustion never occurs. -/
def skipLoop (src : SourceCode) (parentStart : Nat) :
    Nat → Token → Token → WalkResult
  | 0, _, _ => WalkResult.fault
  | fuel + 1, tokenRight, tokenOperator =>
    if tokenOperator.value == "(" then
      match getTokenBefore src tokenOperator with
      | none => WalkResult.fault
      | some newOperator =>
        if newOperator.rangeStart ≤ parentStart then WalkResult.abort
        else skipLoop src parentStart fuel tokenOperator newOperator
    else WalkResult.done tokenRight tokenOperator

/-- Lines 257-264: fetch the operand's first token and the token before
it, then run the parenthesis-skipping loop.  A null result where the rule
asserts non-null (`!`) is `fault`. -/
def resolveTokens (src : SourceCode) (node right : Node) : WalkResult :=
  match getFirstTokenOfNode src right with
  | none => WalkResult.fault
  | some tokenRight =>
    match getTokenBefore src tokenRight with
    | none => WalkResult.fault
    | some tokenOperator =>
      skipLoop src node.rangeStart (src.tokensAndComments.length + 1)
        tokenRight tokenOperator

/-- The `needAdditionIndent` boolean (lines 277-287), a disjunction of:
keyword-led line (excluding `typeof`/`instanceof`/`this`); `type`-led line
of a type-alias declaration (`node.parent?.type === 'TSTypeAliasDeclaration'`);
line ending in `:`/`[`/`(`/`<`/`=`; `[`/`(`/`=>`/`:` immediately before
the whole node on the first-token line; or a `||`/`&&` chain where the
node starts on the left token's line at a column other than that line's
current indentation length. -/
def needAdditionIndent (src : SourceCode) (cache : Cache) (node : Node)
    (tokenBeforeAll : Option Token) (tokenLeft : Token) : Bool :=
  let firstTokenOfLineLeft := firstTokenOfLine src tokenLeft.startLine
  let lastTokenOfLineLeft := lastTokenOfLine src tokenLeft.startLine
  (match firstTokenOfLineLeft with
   | some t => t.ttype == "Keyword" && !(["typeof", "instanceof", "this"].contains t.value)
   | none => false)
  || (match firstTokenOfLineLeft with
      | some t => t.ttype == "Identifier" && t.value == "type"
          && node.parentType == some "TSTypeAliasDeclaration"
      | none => false)
  || [":", "[", "(", "<", "="].contains (optValue lastTokenOfLineLeft)
  || (["[", "(", "=>", ":"].contains (optValue tokenBeforeAll)
      && optStartLine firstTokenOfLineLeft == optStartLine tokenBeforeAll)
  || (["||", "&&"].contains (optValue lastTokenOfLineLeft)
      && node.startLine == tokenLeft.startLine
      && node.startCol != (getIndentOfLine src cache node.startLine).length)

/-- The `needSubtractionIndent` boolean (lines 289-295). -/
def needSubtractionIndent (src : SourceCode) (tokenLeft : Token) : Bool :=
  optValue (lastTokenOfLine src tokenLeft.startLine) == ")"
  && isGreaterThanCloseBracketOfLine src tokenLeft.startLine
  && !(hasExclusivelyCloseBracketOfLine src tokenLeft.startLine)

/-- The `{{expected}}` message datum:
`indentTarget.length + ' ' + (tab | space) + (plural s)`. -/
def expectedData (opt : IndentOpt) (indentTarget : String) : String :=
  toString indentTarget.length ++ " "
    ++ (if opt == IndentOpt.tab then "tab" else "space")
    ++ (if indentTarget.length == 1 then "" else "s")

/-- One reported violation: its location (`line`, columns `startCol` to
`endCol`), the resolved message text, and the fix (replace the character
range [`fixStart`, `fixEnd`) with `fixText`). -/
structure Report where
  line : Nat
  startCol : Nat
  endCol : Nat
  message : String
  fixStart : Nat
  fixEnd : Nat
  fixText : String
deriving Repr, DecidableEq

/-- The `context.report` call of lines 301-327, already knowing
`indentTarget !== indentRight`. -/
def mkReport (opt : IndentOpt) (src : SourceCode) (line : Nat)
    (indentRight indentTarget : String) : Report :=
  { line := line
    startCol := 0
    endCol := indentRight.length
    message := "Expected indentation of " ++ expectedData opt indentTarget
    fixStart := getIndexFromLoc src line 0
    fixEnd := getIndexFromLoc src line indentRight.length
    fixText := indentTarget }

/-- Lines 265-327 of `handler`, after the walk has produced `tokenRight`
and `tokenOperator`: fetch `tokenBeforeAll` and `tokenLeft` (a null
`tokenLeft` faults under the `!` assertion), return on a single-line
pair, classify, compare indentation, and report/record on mismatch.
Result `none` is a fault; `some (none, cache)` is no violation;
`some (some r, cache')` is one report plus the cache update. -/
def classifyAndReport (opt : IndentOpt) (src : SourceCode) (cache : Cache)
    (node : Node) (tokenRight tokenOperator : Token) :
    Option (Option Report × Cache) :=
  let tokenBeforeAll := getTokenBeforeNode src node
  match getTokenBefore src tokenOperator with
  | none => none
  | some tokenLeft =>
    if tokenRight.startLine == tokenLeft.startLine then some (none, cache)
    else
      let needAdd := needAdditionIndent src cache node tokenBeforeAll tokenLeft
      let needSub := needSubtractionIndent src tokenLeft
      let indentLeft := getIndentOfLine src cache tokenLeft.startLine
      let indentRight := getIndentOfLine src cache tokenRight.startLine
      let indentTarget := getTargetIndent opt indentLeft needAdd needSub
      if indentTarget == indentRight then some (none, cache)
      else
        some (some (mkReport opt src tokenRight.startLine indentRight indentTarget),
          cacheSet cache tokenRight.startLine indentTarget)

/-- `handler(node, right)` (lines 253-328).  The walker invokes it with
`right.parent === node`, so the guard's `right.parent!.range[0]` is
`node.rangeStart`. -/
def handler (opt : IndentOpt) (src : SourceCode) (cache : Cache)
    (node right : Node) : Option (Option Report × Cache) :=
  if node.startLine == node.endLine then some (none, cache)
  else
    match resolveTokens src node right with
    | WalkResult.fault => none
    | WalkResult.abort => some (none, cache)
    | WalkResult.done tokenRight tokenOperator =>
      classifyAndReport opt src cache node tokenRight tokenOperator

/-- One analysis pass over a sequence of (owning node, operand) pairs in
visit order, threading the cache and collecting reports; a fault stops
the pass. -/
def runPairs (opt : IndentOpt) (src : SourceCode) :
    List (Node × Node) → Cache → List Report × Cache
  | [], cache => ([], cache)
  | (node, right) :: rest, cache =>
    match handler opt src cache node right with
    | none => ([], cache)
    | some (none, cache') => runPairs opt src rest cache'
    | some (some r, cache') =>
      let out := runPairs opt src rest cache'
      (r :: out.1, out.2)

/-! Concrete inputs used by counterexamples and witnesses.  Each models a
small source text together with the tokenization and node data the host
parser would supply for it. -/

/-- Source `if (a &&\nb) {}` — the spec's own two-space example. -/
def exSrc6 : SourceCode :=
  { lines := ["if (a &&", "b) \x7b\x7d"]
    tokensAndComments :=
      [ { value := "if", ttype := "Keyword", isComment := false,
          startLine := 1, startCol := 0, endLine := 1, rangeStart := 0 },
        { value := "(", ttype := "Punctuator", isComment := false,
          startLine := 1, startCol := 3, endLine := 1, rangeStart := 3 },
        { value := "a", ttype := "Identifier", isComment := false,
          startLine := 1, startCol := 4, endLine := 1, rangeStart := 4 },
        { value := "&&", ttype := "Punctuator", isComment := false,
          startLine := 1, startCol := 6, endLine := 1, rangeStart := 6 },
        { value := "b", ttype := "Identifier", isComment := false,
          startLine := 2, startCol := 0, endLine := 2, rangeStart := 9 },
        { value := ")", ttype := "Punctuator", isComment := false,
          startLine := 2, startCol := 1, endLine := 2, rangeStart := 10 },
        { value := "\x7b", ttype := "Punctuator", isComment := false,
          startLine := 2, startCol := 3, endLine := 2, rangeStart := 12 },
        { value := "\x7d", ttype := "Punctuator", isComment := false,
          startLine := 2, startCol := 4, endLine := 2, rangeStart := 13 } ] }

/-- The `LogicalExpression` `a && b` of `exSrc6`. -/
def exNode6 : Node :=
  { startLine := 1, startCol := 4, endLine := 2, rangeStart := 4,
    rangeEnd := 10, parentType := some "IfStatement" }

/-- The right operand `b` of `exNode6`. -/
def exRight6 : Node :=
  { startLine := 2, startCol := 0, endLine := 2, rangeStart := 9,
    rangeEnd := 10, parentType := some "LogicalExpression" }

/-- Source `f(a,\n \tb)\n+ c`: the left-context line 2 has the mixed
indentation `" \t"` (one space, one tab). -/
def exSrc2 : SourceCode :=
  { lines := ["f(a,", " \tb)", "+ c"]
    tokensAndComments :=
      [ { value := "f", ttype := "Identifier", isComment := false,
          startLine := 1, startCol := 0, endLine := 1, rangeStart := 0 },
        { value := "(", ttype := "Punctuator", isComment := false,
          startLine := 1, startCol := 1, endLine := 1, rangeStart := 1 },
        { value := "a", ttype := "Identifier", isComment := false,
          startLine := 1, startCol := 2, endLine := 1, rangeStart := 2 },
        { value := ",", ttype := "Punctuator", isComment := false,
          startLine := 1, startCol := 3, endLine := 1, rangeStart := 3 },
        { value := "b", ttype := "Identifier", isComment := false,
          startLine := 2, startCol := 2, endLine := 2, rangeStart := 7 },
        { value := ")", ttype := "Punctuator", isComment := false,
          startLine := 2, startCol := 3, endLine := 2, rangeStart := 8 },
        { value := "+", ttype := "Punctuator", isComment := false,
          startLine := 3, startCol := 0, endLine := 3, rangeStart := 10 },
        { value := "c", ttype := "Identifier", isComment := false,
          startLine := 3, startCol := 2, endLine := 3, rangeStart := 12 } ] }

/-- The `BinaryExpression` `f(a,\n \tb)\n+ c` of `exSrc2`. -/
def exNode2 : Node :=
  { startLine := 1, startCol := 0, endLine := 3, rangeStart := 0,
    rangeEnd := 13, parentType := some "ExpressionStatement" }

/-- The right operand `c` of `exNode2`. -/
def exRight2 : Node :=
  { startLine := 3, startCol := 2, endLine := 3, rangeStart := 12,
    rangeEnd := 13, parentType := some "BinaryExpression" }

/-- The `)` token of line 2 of `exSrc2`; it is the `tokenLeft` the
handler resolves for the pair `(exNode2, exRight2)`. -/
def exRParen2 : Token :=
  { value := ")", ttype := "Punctuator", isComment := false,
    startLine := 2, startCol := 3, endLine := 2, rangeStart := 8 }

/-- Source `(a\n  /* c */ )\n + d`: line 2 carries a block comment before
its closing parenthesis, so its only non-comment token is `)`. -/
def exSrc5 : SourceCode :=
  { lines := ["(a", "  /* c */ )", " + d"]
    tokensAndComments :=
      [ { value := "(", ttype := "Punctuator", isComment := false,
          startLine := 1, startCol := 0, endLine := 1, rangeStart := 0 },
        { value := "a", ttype := "Identifier", isComment := false,
          startLine := 1, startCol := 1, endLine := 1, rangeStart := 1 },
        { value := " c ", ttype := "Block", isComment := true,
          startLine := 2, startCol := 2, endLine := 2, rangeStart := 5 },
        { value := ")", ttype := "Punctuator", isComment := false,
          startLine := 2, startCol := 10, endLine := 2, rangeStart := 13 },
        { value := "+", ttype := "Punctuator", isComment := false,
          startLine := 3, startCol := 1, endLine := 3, rangeStart := 16 },
        { value := "d", ttype := "Identifier", isComment := false,
          startLine := 3, startCol := 3, endLine := 3, rangeStart := 18 } ] }

/-- The `BinaryExpression` `(a\n  /* c */ )\n + d` of `exSrc5`. -/
def exNode5 : Node :=
  { startLine := 1, startCol := 0, endLine := 3, rangeStart := 0,
    rangeEnd := 19, parentType := some "ExpressionStatement" }

/-- The right operand `d` of `exNode5`. -/
def exRight5 : Node :=
  { startLine := 3, startCol := 3, endLine := 3, rangeStart := 18,
    rangeEnd := 19, parentType := some "BinaryExpression" }

/-- The `)` token of line 2 of `exSrc5`; it is the `tokenLeft` the
handler resolves for the pair `(exNode5, exRight5)`. -/
def exRParen5 : Token :=
  { value := ")", ttype := "Punctuator", isComment := false,
    startLine := 2, startCol := 10, endLine := 2, rangeStart := 13 }

/-- Source `a &&\n  b`: the owning node starts at offset 0, so no token
precedes it. -/
def exSrc8 : SourceCode :=
  { lines := ["a &&", "  b"]
    tokensAndComments :=
      [ { value := "a", ttype := "Identifier", isComment := false,
          startLine := 1, startCol := 0, endLine := 1, rangeStart := 0 },
        { value := "&&", ttype := "Punctuator", isComment := false,
          startLine := 1, startCol := 2, endLine := 1, rangeStart := 2 },
        { value := "b", ttype := "Identifier", isComment := false,
          startLine := 2, startCol := 2, endLine := 2, rangeStart := 7 } ] }

/-- The `LogicalExpression` `a &&\n  b` of `exSrc8`. -/
def exNode8 : Node :=
  { startLine := 1, startCol := 0, endLine := 2, rangeStart := 0,
    rangeEnd := 8, parentType := some "ExpressionStatement" }

/-- The right operand `b` of `exNode8`. -/
def exRight8 : Node :=
  { startLine := 2, startCol := 2, endLine := 2, rangeStart := 7,
    rangeEnd := 8, parentType := some "LogicalExpression" }

/-- Source `\tif (a &&\nb) {}`: line 1 is tab-indented although the rule
runs in two-space mode. -/
def exSrc9 : SourceCode :=
  { lines := ["\tif (a &&", "b) \x7b\x7d"]
    tokensAndComments :=
      [ { value := "if", ttype := "Keyword", isComment := false,
          startLine := 1, startCol := 1, endLine := 1, rangeStart := 1 },
        { value := "(", ttype := "Punctuator", isComment := false,
          startLine := 1, startCol := 4, endLine := 1, rangeStart := 4 },
        { value := "a", ttype := "Identifier", isComment := false,
          startLine := 1, startCol := 5, endLine := 1, rangeStart := 5 },
        { value := "&&", ttype := "Punctuator", isComment := false,
          startLine := 1, startCol := 7, endLine := 1, rangeStart := 7 },
        { value := "b", ttype := "Identifier", isComment := false,
          startLine := 2, startCol := 0, endLine := 2, rangeStart := 10 },
        { value := ")", ttype := "Punctuator", isComment := false,
          startLine := 2, startCol := 1, endLine := 2, rangeStart := 11 },
        { value := "\x7b", ttype := "Punctuator", isComment := false,
          startLine := 2, startCol := 3, endLine := 2, rangeStart := 13 },
        { value := "\x7d", ttype := "Punctuator", isComment := false,
          startLine := 2, startCol := 4, endLine := 2, rangeStart := 14 } ] }

/-- The `LogicalExpression` `a && b` of `exSrc9`. -/
def exNode9 : Node :=
  { startLine := 1, startCol := 5, endLine := 2, rangeStart := 5,
    rangeEnd := 11, parentType := some "IfStatement" }

/-- The right operand `b` of `exNode9`. -/
def exRight9 : Node :=
  { startLine := 2, startCol := 0, endLine := 2, rangeStart := 10,
    rangeEnd := 11, parentType := some "LogicalExpression" }

/-- Source `a ||\n  (\nb)`: the operand `b` is preceded by an opening
parenthesis on its own (indented) line 2. -/
def exSrc10 : SourceCode :=
  { lines := ["a ||", "  (", "b)"]
    tokensAndComments :=
      [ { value := "a", ttype := "Identifier", isComment := false,
          startLine := 1, startCol := 0, endLine := 1, rangeStart := 0 },
        { value := "||", ttype := "Punctuator", isComment := false,
          startLine := 1, startCol := 2, endLine := 1, rangeStart := 2 },
        { value := "(", ttype := "Punctuator", isComment := false,
          startLine := 2, startCol := 2, endLine := 2, rangeStart := 7 },
        { value := "b", ttype := "Identifier", isComment := false,
          startLine := 3, startCol := 0, endLine := 3, rangeStart := 9 },
        { value := ")", ttype := "Punctuator", isComment := false,
          startLine := 3, startCol := 1, endLine := 3, rangeStart := 10 } ] }

/-- The `LogicalExpression` `a || (\nb)` of `exSrc10`. -/
def exNode10 : Node :=
  { startLine := 1, startCol := 0, endLine := 3, rangeStart := 0,
    rangeEnd := 11, parentType := some "ExpressionStatement" }

/-- The right operand `b` of `exNode10`. -/
def exRight10 : Node :=
  { startLine := 3, startCol := 0, endLine := 3, rangeStart := 9,
    rangeEnd := 11, parentType := some "LogicalExpression" }

/-- Source `type T = (\nA\n| B)`: the first union member `A` is preceded
by an opening parenthesis whose own preceding token `=` starts before the
union node. -/
def exSrc3 : SourceCode :=
  { lines := ["type T = (", "A", "| B)"]
    tokensAndComments :=
      [ { value := "type", ttype := "Identifier", isComment := false,
          startLine := 1, startCol := 0, endLine := 1, rangeStart := 0 },
        { value := "T", ttype := "Identifier", isComment := false,
          startLine := 1, startCol := 5, endLine := 1, rangeStart := 5 },
        { value := "=", ttype := "Punctuator", isComment := false,
          startLine := 1, startCol := 7, endLine := 1, rangeStart := 7 },
        { value := "(", ttype := "Punctuator", isComment := false,
          startLine := 1, startCol := 9, endLine := 1, rangeStart := 9 },
        { value := "A", ttype := "Identifier", isComment := false,
          startLine := 2, startCol := 0, endLine := 2, rangeStart := 11 },
        { value := "|", ttype := "Punctuator", isComment := false,
          startLine := 3, startCol := 0, endLine := 3, rangeStart := 13 },
        { value := "B", ttype := "Identifier", isComment := false,
          startLine := 3, startCol := 2, endLine := 3, rangeStart := 15 },
        { value := ")", ttype := "Punctuator", isComment := false,
          startLine := 3, startCol := 3, endLine := 3, rangeStart := 16 } ] }

/-- The `TSUnionType` `A | B` of `exSrc3`. -/
def exNode3 : Node :=
  { startLine := 2, startCol := 0, endLine := 3, rangeStart := 11,
    rangeEnd := 16, parentType := some "TSTypeAliasDeclaration" }

/-- The first union member `A` of `exNode3`. -/
def exRight3 : Node :=
  { startLine := 2, startCol := 0, endLine := 2, rangeStart := 11,
    rangeEnd := 12, parentType := some "TSUnionType" }

/-- Projection used by closed evaluation statements: the fix text of the
report, if the handler produced one. -/
def reportedFix (out : Option (Option Report × Cache)) : Option String :=
  match out with
  | some (some r, _) => some r.fixText
  | _ => none

/-- The character width of one indent unit: the number of characters
`subtractionIndent` slices off and `indentStr` appends. -/
def unitWidth : IndentOpt → Nat
  | IndentOpt.tab => 1
  | IndentOpt.spaces n => n
  | IndentOpt.defaulted => 2

/-- Keep the first `n` characters of a string. -/
def strTake (n : Nat) (s : String) : String :=
  String.mk (s.data.take n)

/-- Modelled from the spec (claim C2's wording), for comparison with the
source's `subtractionIndent`: the left indentation "with the trailing
indent unit removed (string truncated by the unit's character width)" —
that is, with the unit's width of characters removed from the END of the
string. -/
def trailingUnitRemoved (opt : IndentOpt) (indent : String) : String :=
  strTake (indent.length - unitWidth opt) indent

/-- The token the walk of lines 257-264 leaves in `tokenRight` (the
possibly advanced operand token), when the walk completes. -/
def resolvedRight (src : SourceCode) (node right : Node) : Option Token :=
  match resolveTokens src node right with
  | WalkResult.done tokenRight _ => some tokenRight
  | _ => none

/-- The token the handler takes as `tokenLeft` (line 266), when the walk
completes. -/
def resolvedLeft (src : SourceCode) (node right : Node) : Option Token :=
  match resolveTokens src node right with
  | WalkResult.done _ tokenOperator => getTokenBefore src tokenOperator
  | _ => none

/-- C2 (counterexample): the claim says the subtraction case removes the
TRAILING indent unit from the left-context line's indentation.  The code
removes the unit's width of characters from the FRONT
(`indent.slice(options[0] ?? 2)`).  On the evaluated pair of `exSrc2`
(one-space mode) the left line's indentation is `" \t"`: the code's
target, emitted in the fix, is `"\t"`, while trailing removal would give
`" "`. -/
theorem subtraction_trailing_counterexample :
    getIndentOfLine exSrc2 [] 2 = " \t"
    ∧ needSubtractionIndent exSrc2 exRParen2 = true
    ∧ resolvedLeft exSrc2 exNode2 exRight2 = some exRParen2
    ∧ reportedFix (handler (IndentOpt.spaces 1) exSrc2 [] exNode2 exRight2) = some "\t"
    ∧ trailingUnitRemoved (IndentOpt.spaces 1) " \t" = " "
    ∧ ("\t" : String) ≠ " " := by decide

/-- C2 (amended): the target indentation is computed from the left line's
indentation by appending exactly one indent unit (`n` spaces in `n`-space
mode, one tab in tab mode) when addition holds alone, by removing the
unit's width of characters from the FRONT of the string when subtraction
holds alone (an empty or partial result when the indentation is shorter
than one unit, with no error), and unchanged when both or neither hold;
the amount added or removed always has the unit's character width. -/
theorem getTargetIndent_characterization (opt : IndentOpt) (indent : String) (n : Nat) :
    getTargetIndent opt indent true false = indent ++ indentStr opt
    ∧ getTargetIndent opt indent false true = strDrop (unitWidth opt) indent
    ∧ getTargetIndent opt indent true true = indent
    ∧ getTargetIndent opt indent false false = indent
    ∧ indentStr (IndentOpt.spaces n) = spacesRepeat n
    ∧ indentStr IndentOpt.tab = "\t"
    ∧ (strDrop (unitWidth opt) indent).length = indent.length - unitWidth opt
    ∧ (indent ++ indentStr opt).length = indent.length + unitWidth opt := by
  refine ⟨rfl, ?_, rfl, rfl, rfl, rfl, ?_, ?_⟩
  · cases opt <;> rfl
  · show (indent.data.drop (unitWidth opt)).length = indent.data.length - unitWidth opt
    exact List.length_drop (unitWidth opt) indent.data
  · rw [String.length_append]
    congr 1
    cases opt <;> simp [indentStr, unitWidth, spacesRepeat, String.length]

/-- C4: no violation is possible when the owning node starts and ends on
the same line, or when the resolved left-context token and the (possibly
advanced) operand token start on the same line: the handler returns
without reporting and without touching the cache, whatever the actual
indentation is. -/
theorem sameLine_no_violation (opt : IndentOpt) (src : SourceCode) (cache : Cache)
    (node right : Node)
    (h : node.startLine = node.endLine ∨
      ∃ tr op tl, resolveTokens src node right = WalkResult.done tr op ∧
        getTokenBefore src op = some tl ∧ tl.startLine = tr.startLine) :
    handler opt src cache node right = some (none, cache) := by
  rcases h with h | ⟨tr, op, tl, hres, htl, hline⟩
  · simp [handler, h]
  · by_cases hnl : node.startLine = node.endLine
    · simp [handler, hnl]
    · simp [handler, hnl, hres, classifyAndReport, htl, hline]

/-- C4 (witness): on `exSrc6` with the node collapsed to a single line,
the handler reports nothing. -/
theorem sameLine_no_violation_witness :
    handler (IndentOpt.spaces 2) exSrc6 []
      (Node.mk 1 4 1 4 10 (some "IfStatement")) exRight6 = some (none, []) :=
  sameLine_no_violation (IndentOpt.spaces 2) exSrc6 []
    (Node.mk 1 4 1 4 10 (some "IfStatement")) exRight6 (Or.inl rfl)

/-- The one-pass bracket count of `isGreaterThanCloseBracketOfLine` is the
pair of `(`-counts and `)`-counts. -/
theorem bracketCounts_eq_countP (l : List Token) : ∀ a b : Nat,
    l.foldl
      (fun (acc : Nat × Nat) t =>
        ((if t.value == "(" then acc.1 + 1 else acc.1),
         (if t.value == ")" then acc.2 + 1 else acc.2)))
      (a, b)
    = (a + l.countP (fun t => t.value == "("),
       b + l.countP (fun t => t.value == ")")) := by
  induction l with
  | nil => intro a b; simp
  | cons x xs ih =>
    intro a b
    rw [List.foldl_cons, ih, List.countP_cons, List.countP_cons]
    by_cases h1 : x.value = "(" <;> by_cases h2 : x.value = ")" <;>
      simp [h1, h2] <;> omega

/-- C5 (amended): the subtraction boolean holds exactly when, on the
left-context token's line: the last token-or-comment ending there is `)`,
the count of `)`-valued entries starting there strictly exceeds the count
of `(`-valued entries, and NOT every token-or-comment starting there is
one of `)`, `}`, `]` — where all three scans run over
`tokensAndComments`, comments included. -/
theorem needSubtractionIndent_iff (src : SourceCode) (tokenLeft : Token) :
    needSubtractionIndent src tokenLeft = true ↔
      ((∃ t, lastTokenOfLine src tokenLeft.startLine = some t ∧ t.value = ")")
       ∧ (src.tokensAndComments.filter
            (fun t => t.startLine == tokenLeft.startLine)).countP
            (fun t => t.value == "(")
          < (src.tokensAndComments.filter
            (fun t => t.startLine == tokenLeft.startLine)).countP
            (fun t => t.value == ")")
       ∧ ¬(∀ t ∈ src.tokensAndComments, t.startLine = tokenLeft.startLine →
            t.value ∈ ([")", "\x7d", "]"] : List String))) := by
  simp only [needSubtractionIndent, isGreaterThanCloseBracketOfLine,
    hasExclusivelyCloseBracketOfLine, bracketCounts_eq_countP, Nat.zero_add]
  cases hlast : lastTokenOfLine src tokenLeft.startLine <;>
    simp [optValue, hlast, List.any_eq_true, List.mem_filter] <;>
    aesop

/-- C5 (counterexample): the claim excludes comments from the
exclusively-closing-brackets scan, but the code scans `tokensAndComments`
with comments included.  On `exSrc5`, every NON-comment token starting on
the left-context line 2 is a closing bracket — so under the claim the
line is exclusively closers and subtraction must not hold — yet the code
sees the block comment, treats the line as not exclusively closers,
applies subtraction, and emits the fix `""` (instead of the unchanged
indentation `"  "` the claim would predict). -/
theorem subtraction_comment_counterexample :
    needSubtractionIndent exSrc5 exRParen5 = true
    ∧ (∀ t ∈ exSrc5.tokensAndComments, ¬t.isComment = true →
        t.startLine = 2 → t.value ∈ ([")", "\x7d", "]"] : List String))
    ∧ resolvedLeft exSrc5 exNode5 exRight5 = some exRParen5
    ∧ getIndentOfLine exSrc5 [] 2 = "  "
    ∧ reportedFix (handler (IndentOpt.spaces 2) exSrc5 [] exNode5 exRight5) = some ""
    ∧ ("" : String) ≠ "  " := by decide

/-- C1: the addition boolean computed for an evaluated pair (with
`tokenBeforeAll` being the token immediately preceding the whole owning
node, as the handler passes it) holds exactly when one of the claim's
five conditions holds on the left-context token's line: (a) its first
token is a reserved keyword other than `typeof`/`instanceof`/`this`;
(b) its first token is the identifier `type` and the owning node's parent
is a type-alias declaration; (c) its last token is `:`/`[`/`(`/`<`/`=`;
(d) the token immediately preceding the owning node is `[`/`(`/`=>`/`:`
and lies on the same line as the line's first token; (e) its last token
is `||`/`&&`, the node starts on the left token's line, and the node's
start column differs from the length of that line's current (cache-aware)
indentation. -/
theorem needAdditionIndent_iff (src : SourceCode) (cache : Cache)
    (node : Node) (tokenLeft : Token) :
    needAdditionIndent src cache node (getTokenBeforeNode src node) tokenLeft = true ↔
      ((∃ t, firstTokenOfLine src tokenLeft.startLine = some t
          ∧ t.ttype = "Keyword"
          ∧ t.value ∉ (["typeof", "instanceof", "this"] : List String))
       ∨ (∃ t, firstTokenOfLine src tokenLeft.startLine = some t
          ∧ t.ttype = "Identifier" ∧ t.value = "type"
          ∧ node.parentType = some "TSTypeAliasDeclaration")
       ∨ (∃ t, lastTokenOfLine src tokenLeft.startLine = some t
          ∧ t.value ∈ ([":", "[", "(", "<", "="] : List String))
       ∨ (∃ tb ft, getTokenBeforeNode src node = some tb
          ∧ tb.value ∈ (["[", "(", "=>", ":"] : List String)
          ∧ firstTokenOfLine src tokenLeft.startLine = some ft
          ∧ ft.startLine = tb.startLine)
       ∨ (∃ t, lastTokenOfLine src tokenLeft.startLine = some t
          ∧ t.value ∈ (["||", "&&"] : List String)
          ∧ node.startLine = tokenLeft.startLine
          ∧ node.startCol ≠ (getIndentOfLine src cache node.startLine).length)) := by
  unfold needAdditionIndent
  cases hf : firstTokenOfLine src tokenLeft.startLine <;>
    cases hl : lastTokenOfLine src tokenLeft.startLine <;>
    cases hb : getTokenBeforeNode src node <;>
    simp [optValue, optStartLine, hf, hl, hb] <;>
    aesop

/-- Inversion helper: any no-report outcome leaves the cache untouched
(the cache is written only inside the report branch, line 326). -/
theorem handler_noReport_cache (opt : IndentOpt) (src : SourceCode)
    (cache cache' : Cache) (node right : Node)
    (h : handler opt src cache node right = some (none, cache')) :
    cache' = cache := by
  simp only [handler, classifyAndReport] at h
  split at h
  · simp only [Option.some.injEq, Prod.mk.injEq] at h
    exact h.2.symm
  · split at h
    · simp at h
    · simp only [Option.some.injEq, Prod.mk.injEq] at h
      exact h.2.symm
    · split at h
      · simp at h
      · split at h
        · simp only [Option.some.injEq, Prod.mk.injEq] at h
          exact h.2.symm
        · split at h
          · simp only [Option.some.injEq, Prod.mk.injEq] at h
            exact h.2.symm
          · simp at h

/-- Inversion helper: a reported outcome arises exactly from the report
branch of lines 301-327, with `tokenRight`/`tokenOperator` resolved by
the walk, `tokenLeft` the token before the operator, the left and right
lines distinct, and the target differing from the (cache-aware) right
indentation. -/
theorem handler_some_inversion (opt : IndentOpt) (src : SourceCode) (cache : Cache)
    (node right : Node) (r : Report) (cache' : Cache)
    (h : handler opt src cache node right = some (some r, cache')) :
    ∃ tr op tl,
      resolveTokens src node right = WalkResult.done tr op
      ∧ getTokenBefore src op = some tl
      ∧ tr.startLine ≠ tl.startLine
      ∧ getTargetIndent opt (getIndentOfLine src cache tl.startLine)
          (needAdditionIndent src cache node (getTokenBeforeNode src node) tl)
          (needSubtractionIndent src tl) ≠ getIndentOfLine src cache tr.startLine
      ∧ r = mkReport opt src tr.startLine (getIndentOfLine src cache tr.startLine)
          (getTargetIndent opt (getIndentOfLine src cache tl.startLine)
            (needAdditionIndent src cache node (getTokenBeforeNode src node) tl)
            (needSubtractionIndent src tl))
      ∧ cache' = cacheSet cache tr.startLine
          (getTargetIndent opt (getIndentOfLine src cache tl.startLine)
            (needAdditionIndent src cache node (getTokenBeforeNode src node) tl)
            (needSubtractionIndent src tl)) := by
  simp only [handler, classifyAndReport] at h
  split at h
  · simp at h
  · split at h
    · simp at h
    · simp at h
    · rename_i tr op hres
      split at h
      · simp at h
      · rename_i tl htl
        split at h
        · simp at h
        · rename_i hline
          split at h
          · simp at h
          · rename_i hneq
            simp only [Option.some.injEq, Prod.mk.injEq] at h
            refine ⟨tr, op, tl, hres, htl, ?_, ?_, h.1.symm, h.2.symm⟩
            · simpa using hline
            · simpa using hneq

/-- C6: when the target equals the cache-aware actual indentation of the
operand token's line, the handler makes no report and no cache update;
when they differ, it makes exactly one report (the result type allows at
most one) whose location spans column 0 to the length of that actual
indentation, whose message states the expected indentation as a character
count with a correctly pluralized unit name, whose fix replaces exactly
the offsets of that column range with the target string, and it records
the target in the cache under that line, where a later
`getIndentOfLine` lookup observes it. -/
theorem report_shape (opt : IndentOpt) (src : SourceCode) (cache : Cache)
    (node right : Node) (res : Option Report) (cache' : Cache)
    (h : handler opt src cache node right = some (res, cache')) :
    (res = none → cache' = cache) ∧
    (∀ r, res = some r →
      r.fixText ≠ getIndentOfLine src cache r.line
      ∧ r.startCol = 0
      ∧ r.endCol = (getIndentOfLine src cache r.line).length
      ∧ r.message = "Expected indentation of " ++ toString r.fixText.length ++ " "
          ++ (if opt = IndentOpt.tab then "tab" else "space")
          ++ (if r.fixText.length = 1 then "" else "s")
      ∧ r.fixStart = getIndexFromLoc src r.line 0
      ∧ r.fixEnd = getIndexFromLoc src r.line r.endCol
      ∧ cache' = cacheSet cache r.line r.fixText
      ∧ getIndentOfLine src cache' r.line = r.fixText) := by
  constructor
  · intro hres
    subst hres
    exact handler_noReport_cache opt src cache cache' node right h
  · intro r hres
    subst hres
    obtain ⟨tr, op, tl, hwalk, htl, hline, hneq, hr, hc⟩ :=
      handler_some_inversion opt src cache node right r cache' h
    subst hr
    refine ⟨hneq, rfl, rfl, ?_, rfl, rfl, hc, ?_⟩
    · simp [mkReport, expectedData, beq_iff_eq, String.append_assoc]
    · subst hc
      simp [getIndentOfLine, cacheGet, cacheSet, mkReport]

/-- C6 (witness): on the spec's own example `if (a &&\nb) {}` with the
two-space default, the handler reports the violation
`Expected indentation of 2 spaces` on line 2, columns 0-0, fixing offsets
9-9 to `"  "`, and caches `"  "` for line 2. -/
theorem report_shape_witness :
    handler (IndentOpt.spaces 2) exSrc6 [] exNode6 exRight6 =
      some (some (Report.mk 2 0 0 "Expected indentation of 2 spaces" 9 9 "  "),
        [(2, "  ")])
    ∧ (Report.mk 2 0 0 "Expected indentation of 2 spaces" 9 9 "  ").message
        = "Expected indentation of "
          ++ toString (Report.mk 2 0 0 "Expected indentation of 2 spaces" 9 9 "  ").fixText.length
          ++ " " ++ (if IndentOpt.spaces 2 = IndentOpt.tab then "tab" else "space")
          ++ (if (Report.mk 2 0 0 "Expected indentation of 2 spaces" 9 9 "  ").fixText.length = 1 then "" else "s")
    ∧ getIndentOfLine exSrc6 [(2, "  ")] 2 = "  " :=
  ⟨by decide,
   ((report_shape (IndentOpt.spaces 2) exSrc6 [] exNode6 exRight6
      (some (Report.mk 2 0 0 "Expected indentation of 2 spaces" 9 9 "  "))
      [(2, "  ")] (by decide)).2
      (Report.mk 2 0 0 "Expected indentation of 2 spaces" 9 9 "  ") rfl).2.2.2.1,
   by decide⟩

/-- C10: whenever the handler reports, the line it compares, reports on,
rewrites, and records in the cache is the start line of the walk's
(possibly advanced) `tokenRight` — the outermost skipped `(` when any
parentheses were skipped — not the operand node's own first-token line. -/
theorem report_on_advanced_token_line (opt : IndentOpt) (src : SourceCode)
    (cache : Cache) (node right : Node) (r : Report) (cache' : Cache)
    (h : handler opt src cache node right = some (some r, cache')) :
    ∃ tr, resolvedRight src node right = some tr
      ∧ r.line = tr.startLine
      ∧ r.endCol = (getIndentOfLine src cache tr.startLine).length
      ∧ r.fixStart = getIndexFromLoc src tr.startLine 0
      ∧ r.fixEnd = getIndexFromLoc src tr.startLine r.endCol
      ∧ cache' = cacheSet cache tr.startLine r.fixText := by
  obtain ⟨tr, op, tl, hwalk, htl, hline, hneq, hr, hc⟩ :=
    handler_some_inversion opt src cache node right r cache' h
  subst hr
  exact ⟨tr, by simp [resolvedRight, hwalk], rfl, rfl, rfl, rfl, hc⟩

/-- C10 (witness): on `a ||\n  (\nb)` the walk advances over the `(` of
line 2, and the report lands on line 2 — the parenthesis's line — while
the operand `b`'s own first token is on line 3. -/
theorem report_on_advanced_token_line_witness :
    (resolvedRight exSrc10 exNode10 exRight10).map Token.startLine = some 2
    ∧ (getFirstTokenOfNode exSrc10 exRight10).map Token.startLine = some 3
    ∧ handler (IndentOpt.spaces 2) exSrc10 [] exNode10 exRight10 =
        some (some (Report.mk 2 0 2 "Expected indentation of 0 spaces" 5 7 ""),
          [(2, "")])
    ∧ (Report.mk 2 0 2 "Expected indentation of 0 spaces" 5 7 "").line = 2 := by
  have h := report_on_advanced_token_line (IndentOpt.spaces 2) exSrc10 []
    exNode10 exRight10 (Report.mk 2 0 2 "Expected indentation of 0 spaces" 5 7 "")
    [(2, "")] (by decide)
  obtain ⟨tr, htr, hline, _⟩ := h
  have htr2 : tr.startLine = 2 := by
    have : (resolvedRight exSrc10 exNode10 exRight10).map Token.startLine = some 2 := by decide
    rw [htr] at this
    simpa using this
  exact ⟨by decide, by decide, by decide, by rw [hline, htr2]⟩

/-- The claim's description of the backward walk, as a relation: from the
configuration (`tokenRight`, `tokenOperator`) the walk repeatedly skips an
opening-parenthesis operator, provided the token fetched behind it starts
strictly after the owning node's start `ns`, reaching a final
configuration. -/
inductive WalkReaches (src : SourceCode) (ns : Nat) :
    Token → Token → Token → Token → Prop where
  | refl (tr op : Token) : WalkReaches src ns tr op tr op
  | step (tr op u tr' op' : Token) :
      op.value = "(" → getTokenBefore src op = some u → ns < u.rangeStart →
      WalkReaches src ns op u tr' op' →
      WalkReaches src ns tr op tr' op'

/-- An aborted skip loop was stopped, after zero or more legitimate
skips, by a fetched preceding token starting at or before `ns`. -/
theorem skipLoop_abort_reaches (src : SourceCode) (ns : Nat) : ∀ (fuel : Nat)
    (tr op : Token), skipLoop src ns fuel tr op = WalkResult.abort →
    ∃ tr' op' u, WalkReaches src ns tr op tr' op'
      ∧ op'.value = "(" ∧ getTokenBefore src op' = some u
      ∧ u.rangeStart ≤ ns := by
  intro fuel
  induction fuel with
  | zero => intro tr op h; simp [skipLoop] at h
  | succ n ih =>
    intro tr op h
    unfold skipLoop at h
    by_cases hv : (op.value == "(") = true
    · rw [if_pos hv] at h
      cases hb : getTokenBefore src op with
      | none => rw [hb] at h; simp at h
      | some u =>
        simp only [hb] at h
        by_cases hle : u.rangeStart ≤ ns
        · exact ⟨tr, op, u, WalkReaches.refl tr op, by simpa using hv, hb, hle⟩
        · rw [if_neg hle] at h
          obtain ⟨tr', op', w, hre, hv', hb', hle'⟩ := ih op u h
          exact ⟨tr', op', w,
            WalkReaches.step tr op u tr' op' (by simpa using hv) hb
              (Nat.lt_of_not_le hle) hre, hv', hb', hle'⟩
    · rw [if_neg hv] at h
      simp at h

/-- A completed skip loop reaches its final configuration by legitimate
skips, and its final operator is not an opening parenthesis. -/
theorem skipLoop_done_reaches (src : SourceCode) (ns : Nat) : ∀ (fuel : Nat)
    (tr op tr' op' : Token),
    skipLoop src ns fuel tr op = WalkResult.done tr' op' →
    WalkReaches src ns tr op tr' op' ∧ op'.value ≠ "(" := by
  intro fuel
  induction fuel with
  | zero => intro tr op tr' op' h; simp [skipLoop] at h
  | succ n ih =>
    intro tr op tr' op' h
    unfold skipLoop at h
    by_cases hv : (op.value == "(") = true
    · rw [if_pos hv] at h
      cases hb : getTokenBefore src op with
      | none => rw [hb] at h; simp at h
      | some u =>
        simp only [hb] at h
        by_cases hle : u.rangeStart ≤ ns
        · rw [if_pos hle] at h; simp at h
        · rw [if_neg hle] at h
          obtain ⟨hre, hv'⟩ := ih op u tr' op' h
          exact ⟨WalkReaches.step tr op u tr' op' (by simpa using hv) hb
            (Nat.lt_of_not_le hle) hre, hv'⟩
    · rw [if_neg hv] at h
      simp only [WalkResult.done.injEq] at h
      obtain ⟨h1, h2⟩ := h
      subst h1; subst h2
      exact ⟨WalkReaches.refl tr op, by simpa using hv⟩

/-- C3: during the backward parenthesis-skipping walk, an abort — caused
exactly by a fetched preceding token starting at or before the owning
node's start, after zero or more legitimate skips from the operand's
first token — makes the handler return with no violation and no cache
update; otherwise the walk completes at the first non-`(` preceding
token, which becomes the operator (the evaluation continuing through
`classifyAndReport`, whose left-context token is the token before that
operator). -/
theorem walk_characterization (opt : IndentOpt) (src : SourceCode)
    (cache : Cache) (node right : Node) :
    (resolveTokens src node right = WalkResult.abort →
      handler opt src cache node right = some (none, cache)
      ∧ ∃ tr0 op0 tr' op' u, getFirstTokenOfNode src right = some tr0
          ∧ getTokenBefore src tr0 = some op0
          ∧ WalkReaches src node.rangeStart tr0 op0 tr' op'
          ∧ op'.value = "(" ∧ getTokenBefore src op' = some u
          ∧ u.rangeStart ≤ node.rangeStart)
    ∧ (∀ tr' op', resolveTokens src node right = WalkResult.done tr' op' →
        op'.value ≠ "("
        ∧ (∃ tr0 op0, getFirstTokenOfNode src right = some tr0
            ∧ getTokenBefore src tr0 = some op0
            ∧ WalkReaches src node.rangeStart tr0 op0 tr' op')
        ∧ (node.startLine ≠ node.endLine →
            handler opt src cache node right =
              classifyAndReport opt src cache node tr' op')) := by
  constructor
  · intro habort
    constructor
    · by_cases hnl : node.startLine = node.endLine
      · simp [handler, hnl]
      · simp [handler, hnl, habort]
    · unfold resolveTokens at habort
      cases hf : getFirstTokenOfNode src right with
      | none => rw [hf] at habort; simp at habort
      | some tr0 =>
        simp only [hf] at habort
        cases hb : getTokenBefore src tr0 with
        | none => simp only [hb] at habort; simp at habort
        | some op0 =>
          simp only [hb] at habort
          obtain ⟨tr', op', u, hre, hv, hb', hle⟩ :=
            skipLoop_abort_reaches src node.rangeStart
              (src.tokensAndComments.length + 1) tr0 op0 habort
          exact ⟨tr0, op0, tr', op', u, rfl, hb, hre, hv, hb', hle⟩
  · intro tr' op' hdone
    have hdone' := hdone
    unfold resolveTokens at hdone'
    cases hf : getFirstTokenOfNode src right with
    | none => rw [hf] at hdone'; simp at hdone'
    | some tr0 =>
      simp only [hf] at hdone'
      cases hb : getTokenBefore src tr0 with
      | none => simp only [hb] at hdone'; simp at hdone'
      | some op0 =>
        simp only [hb] at hdone'
        obtain ⟨hre, hv⟩ := skipLoop_done_reaches src node.rangeStart
          (src.tokensAndComments.length + 1) tr0 op0 tr' op' hdone'
        refine ⟨hv, ⟨tr0, op0, rfl, hb, hre⟩, ?_⟩
        intro hnl
        simp [handler, hnl, hdone]

/-- C3 (witness): on `type T = (\nA\n| B)` the pair for the first union
member `A` skips the `(` before it, fetches the `=` — which starts before
the union node — and aborts: the handler reports nothing and leaves the
cache empty. -/
theorem walk_characterization_witness :
    resolveTokens exSrc3 exNode3 exRight3 = WalkResult.abort
    ∧ handler (IndentOpt.spaces 2) exSrc3 [] exNode3 exRight3 = some (none, []) := by
  have h := (walk_characterization (IndentOpt.spaces 2) exSrc3 [] exNode3 exRight3).1
    (by decide)
  exact ⟨by decide, h.1⟩

/-- A `getTokenBefore` result is a non-comment stream token starting
strictly before the query position. -/
theorem getTokenBefore_spec (src : SourceCode) (t u : Token)
    (h : getTokenBefore src t = some u) :
    u ∈ src.tokensAndComments ∧ u.isComment = false
      ∧ u.rangeStart < t.rangeStart := by
  have hm : u ∈ nonCommentTokensBefore src t.rangeStart :=
    List.mem_of_mem_getLast? h
  have hmf := List.mem_filter.mp hm
  have h2 := hmf.2
  simp only [Bool.and_eq_true, Bool.not_eq_true', decide_eq_true_eq] at h2
  exact ⟨hmf.1, h2.1, h2.2⟩

/-- On a pairwise-ordered list, the `getLast?` pick dominates every
member. -/
theorem getLast?_dominates {α : Type} {R : α → α → Prop} : ∀ (l : List α) (a : α),
    l.Pairwise R → l.getLast? = some a → ∀ b ∈ l, b = a ∨ R b a := by
  intro l
  induction l with
  | nil => intro a _ h; simp at h
  | cons x xs ih =>
    intro a hp h b hb
    cases xs with
    | nil =>
      simp only [List.getLast?_singleton, Option.some.injEq] at h
      subst h
      simp only [List.mem_singleton] at hb
      exact Or.inl hb
    | cons y ys =>
      rw [List.getLast?_cons_cons] at h
      rcases List.mem_cons.mp hb with hbx | hbm
      · subst hbx
        have hmem : a ∈ y :: ys := List.mem_of_mem_getLast? h
        exact Or.inr ((List.pairwise_cons.mp hp).1 a hmem)
      · exact ih a (List.pairwise_cons.mp hp).2 h b hbm

/-- On a position-sorted stream, a `getTokenBefore` pick starts no
earlier than any other candidate behind the same position. -/
theorem getTokenBefore_max (src : SourceCode)
    (hs : src.tokensAndComments.Pairwise (fun a b => a.rangeStart < b.rangeStart))
    (t u v : Token) (h : getTokenBefore src t = some u)
    (hv : v ∈ nonCommentTokensBefore src t.rangeStart) :
    v.rangeStart ≤ u.rangeStart := by
  have hp : (nonCommentTokensBefore src t.rangeStart).Pairwise
      (fun a b => a.rangeStart < b.rangeStart) :=
    hs.sublist (List.filter_sublist src.tokensAndComments)
  rcases getLast?_dominates _ u hp h v hv with he | hlt
  · rw [he]
  · exact Nat.le_of_lt hlt

/-- The number of candidate tokens behind the walk's position strictly
decreases at every `getTokenBefore` step. -/
theorem countBefore_decrease (src : SourceCode) (t u : Token)
    (h : getTokenBefore src t = some u) :
    (nonCommentTokensBefore src u.rangeStart).length
      < (nonCommentTokensBefore src t.rangeStart).length := by
  have hu := getTokenBefore_spec src t u h
  have hsub : List.Sublist (nonCommentTokensBefore src u.rangeStart)
      (nonCommentTokensBefore src t.rangeStart) := by
    unfold nonCommentTokensBefore
    apply List.monotone_filter_right
    intro a ha
    simp only [Bool.and_eq_true, Bool.not_eq_true', decide_eq_true_eq] at ha ⊢
    exact ⟨ha.1, Nat.lt_trans ha.2 hu.2.2⟩
  by_cases heq : (nonCommentTokensBefore src u.rangeStart).length
      = (nonCommentTokensBefore src t.rangeStart).length
  · exfalso
    have hlists := hsub.eq_of_length heq
    have hmem : u ∈ nonCommentTokensBefore src t.rangeStart :=
      List.mem_of_mem_getLast? h
    rw [← hlists] at hmem
    have hmf := (List.mem_filter.mp hmem).2
    simp only [Bool.and_eq_true, Bool.not_eq_true', decide_eq_true_eq] at hmf
    exact Nat.lt_irrefl _ hmf.2
  · exact Nat.lt_of_le_of_ne hsub.length_le heq

/-- A membership builder for the candidate pool. -/
theorem mem_nonCommentTokensBefore (src : SourceCode) (u : Token) (pos : Nat)
    (h : u ∈ src.tokensAndComments) (hc : u.isComment = false)
    (hlt : u.rangeStart < pos) :
    u ∈ nonCommentTokensBefore src pos := by
  unfold nonCommentTokensBefore
  apply List.mem_filter.mpr
  refine ⟨h, ?_⟩
  simp only [Bool.and_eq_true, Bool.not_eq_true', decide_eq_true_eq]
  exact ⟨hc, hlt⟩

/-- If some candidate lies behind the position, `getTokenBefore` cannot
miss. -/
theorem getTokenBefore_isSome (src : SourceCode) (t u : Token)
    (h : u ∈ src.tokensAndComments) (hc : u.isComment = false)
    (hlt : u.rangeStart < t.rangeStart) :
    getTokenBefore src t ≠ none := by
  intro hnone
  have hne : nonCommentTokensBefore src t.rangeStart ≠ [] :=
    List.ne_nil_of_mem (mem_nonCommentTokensBefore src u t.rangeStart h hc hlt)
  have hsome := List.getLast?_isSome.mpr hne
  rw [getTokenBefore] at hnone
  rw [hnone] at hsome
  simp at hsome

/-- Along a completed walk the operator's start offset never drops to a
bound that is at or below the owning node's start. -/
theorem walkReaches_lowerBound (src : SourceCode) (ns b : Nat) (hbn : b ≤ ns)
    (tr op tr' op' : Token) (h : WalkReaches src ns tr op tr' op')
    (hb : b ≤ op.rangeStart) : b ≤ op'.rangeStart := by
  induction h with
  | refl tr op => exact hb
  | step tr op u tr' op' hv hg hlt _ ih =>
    exact ih (Nat.le_of_lt (Nat.lt_of_le_of_lt hbn hlt))

/-- With fuel exceeding the candidate count and a candidate pair behind
the owning node's start, the skip loop cannot fault. -/
theorem skipLoop_no_fault (src : SourceCode) (ns : Nat) (u1 u2 : Token)
    (h1 : u1 ∈ src.tokensAndComments) (h1c : u1.isComment = false)
    (h12 : u1.rangeStart < u2.rangeStart) (h2n : u2.rangeStart ≤ ns) :
    ∀ (fuel : Nat) (tr op : Token),
      (nonCommentTokensBefore src op.rangeStart).length < fuel →
      u2.rangeStart ≤ op.rangeStart →
      skipLoop src ns fuel tr op ≠ WalkResult.fault := by
  intro fuel
  induction fuel with
  | zero => intro tr op hf _; exact absurd hf (Nat.not_lt_zero _)
  | succ n ih =>
    intro tr op hf hop
    unfold skipLoop
    by_cases hv : (op.value == "(") = true
    · rw [if_pos hv]
      cases hb : getTokenBefore src op with
      | none =>
        exact absurd hb (getTokenBefore_isSome src op u1 h1 h1c
          (Nat.lt_of_lt_of_le h12 hop))
      | some newOp =>
        show (if newOp.rangeStart ≤ ns then WalkResult.abort
          else skipLoop src ns n op newOp) ≠ WalkResult.fault
        by_cases hle : newOp.rangeStart ≤ ns
        · rw [if_pos hle]; simp
        · rw [if_neg hle]
          apply ih op newOp
          · exact Nat.lt_of_lt_of_le (countBefore_decrease src op newOp hb)
              (Nat.le_of_lt_succ hf)
          · exact Nat.le_of_lt (Nat.lt_of_le_of_lt h2n (Nat.lt_of_not_le hle))
    · rw [if_neg hv]; simp

/-- C8 (amended): on a position-sorted token stream where the operand has
a first token starting after the owning node's start and at least two
non-comment tokens start at or before the node's start, the handler never
faults.  (The graceful degradation the claim describes applies only to the
token before the whole node — `tokenBeforeAll`, fetched without a
non-null assertion — and it does not short-circuit evaluation; the
counterexample shows a violation still being reported.) -/
theorem handler_no_fault (opt : IndentOpt) (src : SourceCode) (cache : Cache)
    (node right : Node)
    (hs : src.tokensAndComments.Pairwise (fun a b => a.rangeStart < b.rangeStart))
    (tr0 : Token) (hfirst : getFirstTokenOfNode src right = some tr0)
    (hstart : node.rangeStart < tr0.rangeStart)
    (u1 u2 : Token)
    (h1 : u1 ∈ src.tokensAndComments) (h1c : u1.isComment = false)
    (h2 : u2 ∈ src.tokensAndComments) (h2c : u2.isComment = false)
    (h12 : u1.rangeStart < u2.rangeStart) (h2n : u2.rangeStart ≤ node.rangeStart) :
    handler opt src cache node right ≠ none := by
  unfold handler
  by_cases hnl : (node.startLine == node.endLine) = true
  · rw [if_pos hnl]; simp
  · rw [if_neg hnl]
    have hu2mem : u2 ∈ nonCommentTokensBefore src tr0.rangeStart :=
      mem_nonCommentTokensBefore src u2 tr0.rangeStart h2 h2c
        (Nat.lt_of_le_of_lt h2n hstart)
    cases hb : getTokenBefore src tr0 with
    | none =>
      exact absurd hb (getTokenBefore_isSome src tr0 u2 h2 h2c
        (Nat.lt_of_le_of_lt h2n hstart))
    | some op0 =>
      have hop0 : u2.rangeStart ≤ op0.rangeStart :=
        getTokenBefore_max src hs tr0 op0 u2 hb hu2mem
      cases hw : skipLoop src node.rangeStart
          (src.tokensAndComments.length + 1) tr0 op0 with
      | fault =>
        exact absurd hw (skipLoop_no_fault src node.rangeStart u1 u2 h1 h1c
          h12 h2n (src.tokensAndComments.length + 1) tr0 op0
          (Nat.lt_succ_of_le (List.length_filter_le _ _)) hop0)
      | abort =>
        have hres : resolveTokens src node right = WalkResult.abort := by
          unfold resolveTokens
          simp only [hfirst, hb, hw]
        simp [hres]
      | done tr op =>
        have hres : resolveTokens src node right = WalkResult.done tr op := by
          unfold resolveTokens
          simp only [hfirst, hb, hw]
        simp only [hres]
        have hople : u2.rangeStart ≤ op.rangeStart := by
          have hreach := (skipLoop_done_reaches src node.rangeStart
            (src.tokensAndComments.length + 1) tr0 op0 tr op hw).1
          exact walkReaches_lowerBound src node.rangeStart u2.rangeStart h2n
            tr0 op0 tr op hreach hop0
        cases htl : getTokenBefore src op with
        | none =>
          exact absurd htl (getTokenBefore_isSome src op u1 h1 h1c
            (Nat.lt_of_lt_of_le h12 hople))
        | some tl =>
          unfold classifyAndReport
          simp only [htl]
          split
          · simp
          · split
            · simp
            · simp

/-- C8 (witness): the well-formedness conditions hold on `exSrc6` (with
`if` and `(` as the two tokens at or before the node's start), so the
handler cannot fault there. -/
theorem handler_no_fault_witness :
    handler (IndentOpt.spaces 2) exSrc6 [] exNode6 exRight6 ≠ none :=
  handler_no_fault (IndentOpt.spaces 2) exSrc6 [] exNode6 exRight6
    (by decide)
    (Token.mk "b" "Identifier" false 2 0 2 9) (by decide) (by decide)
    (Token.mk "if" "Keyword" false 1 0 1 0)
    (Token.mk "(" "Punctuator" false 1 3 1 3)
    (by decide) (by decide) (by decide) (by decide) (by decide) (by decide)

/-- C8 (counterexample): the claim says an absent preceding token makes
the pair short-circuit to "no violation".  On `exSrc8` (`a &&\n  b`, a
node at the very start of the file) the token before the owning node is
absent, yet evaluation continues and reports a violation — absence
degrades to "condition (d) is false", not to "no violation". -/
theorem absent_tokenBefore_counterexample :
    getTokenBeforeNode exSrc8 exNode8 = none
    ∧ reportedFix (handler (IndentOpt.spaces 2) exSrc8 [] exNode8 exRight8) = some ""
    ∧ handler (IndentOpt.spaces 2) exSrc8 [] exNode8 exRight8
        ≠ some (none, ([] : Cache)) := by decide

/-- Does a string consist only of repetitions of the character `c`? -/
def allUnitChar (c : Char) (s : String) : Bool :=
  s.data.all (fun ch => ch == c)

/-- The configured indent-unit character: tab in tab mode, space
otherwise. -/
def unitChar : IndentOpt → Char
  | IndentOpt.tab => '\t'
  | IndentOpt.spaces _ => ' '
  | IndentOpt.defaulted => ' '

/-- `indentStr` is made of unit characters. -/
theorem allUnitChar_indentStr (opt : IndentOpt) :
    allUnitChar (unitChar opt) (indentStr opt) = true := by
  cases opt with
  | tab => decide
  | spaces n =>
    simp only [allUnitChar, indentStr, spacesRepeat, unitChar, List.all_eq_true]
    intro ch hch
    rw [List.eq_of_mem_replicate hch]
    simp
  | defaulted => decide

/-- Appending unit-character strings keeps the property. -/
theorem allUnitChar_append (c : Char) (s t : String)
    (hs : allUnitChar c s = true) (ht : allUnitChar c t = true) :
    allUnitChar c (s ++ t) = true := by
  cases s with
  | mk sd =>
    cases t with
    | mk td =>
      simp only [allUnitChar] at hs ht ⊢
      rw [show (String.mk sd ++ String.mk td).data = sd ++ td from rfl,
        List.all_append]
      simp only [hs, ht, Bool.and_self]

/-- Dropping characters keeps the property. -/
theorem allUnitChar_strDrop (c : Char) (n : Nat) (s : String)
    (hs : allUnitChar c s = true) : allUnitChar c (strDrop n s) = true := by
  simp only [allUnitChar, strDrop] at hs ⊢
  rw [List.all_eq_true] at hs ⊢
  intro x hx
  exact hs x (List.drop_subset n s.data hx)

/-- Under the amended invariant's hypotheses, every indentation the rule
reads is made of unit characters. -/
theorem getIndentOfLine_allUnit (opt : IndentOpt) (src : SourceCode)
    (cache : Cache) (line : Nat)
    (hlines : ∀ l ∈ src.lines, allUnitChar (unitChar opt) (leadingWhitespace l) = true)
    (hcache : ∀ e ∈ cache, allUnitChar (unitChar opt) e.2 = true) :
    allUnitChar (unitChar opt) (getIndentOfLine src cache line) = true := by
  unfold getIndentOfLine
  cases hg : cacheGet cache line with
  | some s =>
    unfold cacheGet at hg
    cases hf : cache.find? (fun e => e.1 == line) with
    | none => rw [hf] at hg; simp at hg
    | some e =>
      rw [hf] at hg
      simp at hg
      subst hg
      exact hcache e (List.mem_of_find?_eq_some hf)
  | none =>
    cases hl : src.lines.get? (line - 1) with
    | none =>
      rw [show src.lines.getD (line - 1) ""
        = (src.lines.get? (line - 1)).getD "" from rfl, hl]
      rfl
    | some l =>
      rw [show src.lines.getD (line - 1) ""
        = (src.lines.get? (line - 1)).getD "" from rfl, hl]
      exact hlines l (List.get?_mem hl)

/-- The target computation preserves the unit-character property. -/
theorem getTargetIndent_allUnit (opt : IndentOpt) (indent : String) (a s : Bool)
    (h : allUnitChar (unitChar opt) indent = true) :
    allUnitChar (unitChar opt) (getTargetIndent opt indent a s) = true := by
  unfold getTargetIndent
  split
  · exact allUnitChar_append _ _ _ h (allUnitChar_indentStr opt)
  · split
    · cases opt with
      | tab => exact allUnitChar_strDrop _ 1 _ h
      | spaces n => exact allUnitChar_strDrop _ n _ h
      | defaulted => exact allUnitChar_strDrop _ 2 _ h
    · exact h

/-- One handler step preserves the unit-character property of reported
fixes and cache entries. -/
theorem handler_allUnit (opt : IndentOpt) (src : SourceCode) (cache : Cache)
    (node right : Node) (res : Option Report) (cache' : Cache)
    (hlines : ∀ l ∈ src.lines, allUnitChar (unitChar opt) (leadingWhitespace l) = true)
    (hcache : ∀ e ∈ cache, allUnitChar (unitChar opt) e.2 = true)
    (h : handler opt src cache node right = some (res, cache')) :
    (∀ r, res = some r → allUnitChar (unitChar opt) r.fixText = true)
    ∧ (∀ e ∈ cache', allUnitChar (unitChar opt) e.2 = true) := by
  cases res with
  | none =>
    have hc := handler_noReport_cache opt src cache cache' node right h
    subst hc
    exact ⟨fun r hr => by simp at hr, hcache⟩
  | some r =>
    obtain ⟨tr, op, tl, hwalk, htl, hline, hneq, hr, hc⟩ :=
      handler_some_inversion opt src cache node right r cache' h
    have htarget : allUnitChar (unitChar opt)
        (getTargetIndent opt (getIndentOfLine src cache tl.startLine)
          (needAdditionIndent src cache node (getTokenBeforeNode src node) tl)
          (needSubtractionIndent src tl)) = true :=
      getTargetIndent_allUnit opt _ _ _
        (getIndentOfLine_allUnit opt src cache tl.startLine hlines hcache)
    constructor
    · intro r' hr'
      simp only [Option.some.injEq] at hr'
      subst hr'
      rw [hr]
      exact htarget
    · subst hc
      intro e he
      rcases List.mem_cons.mp he with he1 | he2
      · rw [he1]
        exact htarget
      · exact hcache e he2

/-- C9 (amended): provided every source line's leading whitespace and
every pre-existing cache entry consist only of the configured unit
character, every indentation string an analysis pass emits — each fix's
replacement text and each cache entry — also consists only of that
character.  (Unconditionally this fails: foreign whitespace inherited
from the source survives into emitted strings, see the counterexample.) -/
theorem indent_unit_invariant (opt : IndentOpt) (src : SourceCode) :
    ∀ (pairs : List (Node × Node)) (cache : Cache),
      (∀ l ∈ src.lines, allUnitChar (unitChar opt) (leadingWhitespace l) = true) →
      (∀ e ∈ cache, allUnitChar (unitChar opt) e.2 = true) →
      (∀ r ∈ (runPairs opt src pairs cache).1,
        allUnitChar (unitChar opt) r.fixText = true)
      ∧ (∀ e ∈ (runPairs opt src pairs cache).2,
        allUnitChar (unitChar opt) e.2 = true) := by
  intro pairs
  induction pairs with
  | nil =>
    intro cache hlines hcache
    exact ⟨by simp [runPairs], by simpa [runPairs] using hcache⟩
  | cons p rest ih =>
    intro cache hlines hcache
    obtain ⟨node, right⟩ := p
    cases hh : handler opt src cache node right with
    | none =>
      simp only [runPairs, hh]
      exact ⟨by simp, hcache⟩
    | some out =>
      obtain ⟨res, cache1⟩ := out
      have hstep := handler_allUnit opt src cache node right res cache1
        hlines hcache hh
      cases res with
      | none =>
        simp only [runPairs, hh]
        exact ih cache1 hlines hstep.2
      | some r =>
        simp only [runPairs, hh]
        have hrest := ih cache1 hlines hstep.2
        constructor
        · intro r' hr'
          rcases List.mem_cons.mp hr' with h1 | h2
          · rw [h1]
            exact hstep.1 r rfl
          · exact hrest.1 r' h2
        · exact hrest.2

/-- C9 (witness): on `exSrc6`, whose lines carry no leading whitespace,
the emitted fix `"  "` is all spaces. -/
theorem indent_unit_invariant_witness :
    allUnitChar (unitChar (IndentOpt.spaces 2))
      (Report.mk 2 0 0 "Expected indentation of 2 spaces" 9 9 "  ").fixText = true :=
  (indent_unit_invariant (IndentOpt.spaces 2) exSrc6 [(exNode6, exRight6)] []
    (by decide) (by decide)).1
    (Report.mk 2 0 0 "Expected indentation of 2 spaces" 9 9 "  ") (by decide)

/-- C9 (counterexample): on `exSrc9` (`\tif (a &&\nb) {}`) in two-space
mode, the pass emits the fix text `"\t  "` — the tab inherited from the
source line survives into the emitted indentation string and into the
cache, so the unconditional invariant "only the configured unit
character" is false. -/
theorem indent_unit_counterexample :
    (runPairs (IndentOpt.spaces 2) exSrc9 [(exNode9, exRight9)] []).1.map
        Report.fixText = ["\t  "]
    ∧ (2, "\t  ") ∈ (runPairs (IndentOpt.spaces 2) exSrc9 [(exNode9, exRight9)] []).2
    ∧ allUnitChar (unitChar (IndentOpt.spaces 2)) "\t  " = false := by decide

end IndentBinaryOps
